import Mathlib

/-!
Verification of the grammar-parsing notebook's own helper functions: the
governing-verb resolver `get_verb`, the co-occurrence matcher
`find_sentence`, the subject locator `get_subjMap`, the lexicon matcher
(list comprehensions filtering tokens by keyword membership), and the tone
computation of the sentiment example.

Tokens produced by the external parser are modelled as records carrying
surface text, part-of-speech tag, dependency label and the index of the
head token; a document is a token list together with sentence spans.
-/

namespace Notebook

/-- A parsed token: surface text, part-of-speech tag, dependency label and
the index (within the document) of its head token. -/
structure Token where
  text : String
  pos : String
  dep : String
  head : Nat
deriving DecidableEq, Repr

/-- A parsed document: the tokens in order, and the sentence spans as
half-open index ranges `(start, stop)`. -/
structure Doc where
  tokens : List Token
  sents : List (Nat × Nat)
deriving DecidableEq, Repr

/-- The default token used for out-of-range indexing. -/
def dummyToken : Token := ⟨"", "", "", 0⟩

/-- The token at index `i` of document `d`. -/
def tokAt (d : Doc) (i : Nat) : Token := d.tokens.getD i dummyToken

/-- Index of the head of token `i`: the `w.head` attribute access. -/
def headOf (d : Doc) (i : Nat) : Nat := (tokAt d i).head

/-- The break condition of `get_verb`'s loop:
`h.pos_ == 'VERB' and h.dep_ != 'aux'`. -/
def isMainVerb (d : Doc) (i : Nat) : Bool :=
  (tokAt d i).pos == "VERB" && (tokAt d i).dep != "aux"

/-- `n`-fold iteration of the head reference starting at token `i`. -/
def iterHead (d : Doc) : Nat → Nat → Nat
  | 0, i => i
  | n + 1, i => iterHead d n (headOf d i)

/-- Fuel-indexed semantics of `get_verb`'s `while True` loop: starting at
token `h`, stop at the first token satisfying the break condition; `none`
means the loop has not terminated within `fuel` iterations. -/
def getVerbFuel (d : Doc) : Nat → Nat → Option Nat
  | 0, _ => none
  | fuel + 1, h => if isMainVerb d h then some h else getVerbFuel d fuel (headOf d h)

/-- `get_verb`: canonical fuel of one more than the document length, which
under well-formedness is enough whenever the loop terminates at all
(`get_verb_complete`). `none` models divergence of the source loop. -/
def get_verb (d : Doc) (w : Nat) : Option Nat :=
  getVerbFuel d (d.tokens.length + 1) w

/-- Token `i` is a root: its head reference points to itself. -/
def isRoot (d : Doc) (i : Nat) : Prop := headOf d i = i

instance (d : Doc) (i : Nat) : Decidable (isRoot d i) := by
  unfold isRoot; infer_instance

/-- Well-formed dependency tree: heads stay in range and every token's
head chain reaches a self-headed root within `length` steps (acyclicity up
to the root). -/
def wellFormed (d : Doc) : Prop :=
  (∀ i < d.tokens.length, headOf d i < d.tokens.length) ∧
    (∀ i < d.tokens.length, isRoot d (iterHead d d.tokens.length i))

instance (d : Doc) : Decidable (wellFormed d) := by
  unfold wellFormed; infer_instance

/-- No token on the head chain of `w` (up to the root, reached within
`length` steps) satisfies `get_verb`'s break condition. -/
def noMainVerbOnChain (d : Doc) (w : Nat) : Prop :=
  ∀ n ≤ d.tokens.length, isMainVerb d (iterHead d n w) = false

instance (d : Doc) (w : Nat) : Decidable (noMainVerbOnChain d w) := by
  unfold noMainVerbOnChain; infer_instance

theorem iterHead_add (d : Doc) (m n i : Nat) :
    iterHead d (m + n) i = iterHead d m (iterHead d n i) := by
  induction n generalizing i with
  | zero => rfl
  | succ n ih =>
    have : m + (n + 1) = (m + n) + 1 := rfl
    rw [this]
    show iterHead d (m + n) (headOf d i) = _
    rw [ih]
    rfl

theorem iterHead_root (d : Doc) (r : Nat) (h : isRoot d r) (n : Nat) :
    iterHead d n r = r := by
  induction n with
  | zero => rfl
  | succ n ih =>
    show iterHead d n (headOf d r) = r
    rw [h, ih]

/-- Under well-formedness the head chain is stationary after `length`
steps: every iterate beyond that equals the root reached at `length`. -/
theorem iterHead_stable (d : Doc) (hwf : wellFormed d) (w : Nat)
    (hw : w < d.tokens.length) (n : Nat) (hn : d.tokens.length ≤ n) :
    iterHead d n w = iterHead d d.tokens.length w := by
  obtain ⟨-, hroot⟩ := hwf
  obtain ⟨k, rfl⟩ := Nat.exists_eq_add_of_le hn
  rw [Nat.add_comm, iterHead_add]
  exact iterHead_root d _ (hroot w hw) k

theorem iterHead_succ_outer (d : Doc) (n i : Nat) :
    iterHead d (n + 1) i = headOf d (iterHead d n i) := by
  rw [Nat.add_comm, iterHead_add]
  rfl

theorem getVerbFuel_some (d : Doc) (fuel w v : Nat)
    (h : getVerbFuel d fuel w = some v) :
    ∃ k, k < fuel ∧ v = iterHead d k w ∧
      isMainVerb d (iterHead d k w) = true ∧
      ∀ j < k, isMainVerb d (iterHead d j w) = false := by
  induction fuel generalizing w with
  | zero => simp [getVerbFuel] at h
  | succ fuel ih =>
    by_cases hmv : isMainVerb d w = true
    · refine ⟨0, Nat.succ_pos _, ?_, hmv, by omega⟩
      simp only [getVerbFuel, hmv, if_true, Option.some.injEq] at h
      exact h.symm
    · simp only [getVerbFuel, hmv, if_false] at h
      obtain ⟨k, hk, hv, hkmv, hmin⟩ := ih (headOf d w) h
      refine ⟨k + 1, by omega, hv, hkmv, ?_⟩
      intro j hj
      match j with
      | 0 => exact Bool.not_eq_true _ ▸ hmv
      | j + 1 => exact hmin j (by omega)

theorem getVerbFuel_first (d : Doc) (w k : Nat)
    (hk : isMainVerb d (iterHead d k w) = true)
    (hmin : ∀ j < k, isMainVerb d (iterHead d j w) = false)
    (fuel : Nat) (hfuel : k < fuel) :
    getVerbFuel d fuel w = some (iterHead d k w) := by
  induction k generalizing w fuel with
  | zero =>
    have hk' : isMainVerb d w = true := hk
    match fuel, hfuel with
    | fuel + 1, _ => simp only [getVerbFuel, hk', if_true]; rfl
  | succ k ih =>
    match fuel, hfuel with
    | fuel + 1, hfuel =>
      have h0 : isMainVerb d w = false := hmin 0 (Nat.succ_pos _)
      simp only [getVerbFuel, h0, Bool.false_eq_true, if_false]
      exact ih (headOf d w) hk (fun j hj => hmin (j + 1) (by omega)) fuel (by omega)

/-- Under well-formedness, any terminating run of the loop (some fuel
returns a value) is captured by `get_verb`'s canonical fuel. -/
theorem get_verb_complete (d : Doc) (w : Nat) (hwf : wellFormed d)
    (hw : w < d.tokens.length) (fuel v : Nat)
    (h : getVerbFuel d fuel w = some v) : get_verb d w = some v := by
  obtain ⟨k, _, hv, hkmv, hmin⟩ := getVerbFuel_some d fuel w v h
  have hklen : k ≤ d.tokens.length := by
    by_contra hgt
    have hst := iterHead_stable d hwf w hw k (by omega)
    have := hmin d.tokens.length (by omega)
    rw [← hst, hkmv] at this
    exact Bool.noConfusion this
  rw [get_verb, getVerbFuel_first d w k hkmv hmin (d.tokens.length + 1) (by omega), hv]

/-- C1 (amended): on a well-formed dependency tree, when no token of the
head chain satisfies the break condition, `get_verb`'s loop never
terminates — it returns `none` at every fuel, and in particular does not
return the sentence root. -/
theorem get_verb_diverges_of_noMainVerbOnChain (d : Doc) (w : Nat)
    (hwf : wellFormed d) (hw : w < d.tokens.length)
    (hno : noMainVerbOnChain d w) (fuel : Nat) :
    getVerbFuel d fuel w = none := by
  have hall : ∀ n, isMainVerb d (iterHead d n w) = false := by
    intro n
    rcases le_or_lt n d.tokens.length with hle | hgt
    · exact hno n hle
    · rw [iterHead_stable d hwf w hw n (by omega)]
      exact hno d.tokens.length (Nat.le_refl _)
  have key : ∀ f k, getVerbFuel d f (iterHead d k w) = none := by
    intro f
    induction f with
    | zero => intro k; rfl
    | succ f ih =>
      intro k
      simp only [getVerbFuel, hall k, Bool.false_eq_true, if_false]
      rw [← iterHead_succ_outer]
      exact ih (k + 1)
  exact key fuel 0

/-- A one-token parse with no verb: a well-formed tree on which
`get_verb`'s chain holds no main verb. -/
def exDocNoVerb : Doc := ⟨[⟨"Hello", "INTJ", "ROOT", 0⟩], [(0, 1)]⟩

/-- C1 counterexample: on this well-formed one-token parse whose head
chain holds no main verb, `get_verb` does not return the sentence root
(token 0): it diverges, modelled as `none`. -/
theorem get_verb_not_root_on_exDocNoVerb :
    wellFormed exDocNoVerb ∧ noMainVerbOnChain exDocNoVerb 0 ∧
      get_verb exDocNoVerb 0 = none := by decide

/-- Witness for C1 (amended) at the concrete one-token parse. -/
theorem get_verb_diverges_witness :
    wellFormed exDocNoVerb ∧ noMainVerbOnChain exDocNoVerb 0 ∧
      getVerbFuel exDocNoVerb 5 0 = none :=
  ⟨by decide, by decide,
    get_verb_diverges_of_noMainVerbOnChain exDocNoVerb 0 (by decide) (by decide)
      (by decide) 5⟩

/-- C2: when the head chain does contain a main verb, `get_verb` returns
the first one met walking upward from the token itself, and the returned
token's dependency label is never `"aux"`. -/
theorem get_verb_first_main_verb (d : Doc) (w k : Nat) (hwf : wellFormed d)
    (hw : w < d.tokens.length)
    (hk : isMainVerb d (iterHead d k w) = true)
    (hmin : ∀ j < k, isMainVerb d (iterHead d j w) = false) :
    get_verb d w = some (iterHead d k w) ∧
      (tokAt d (iterHead d k w)).dep ≠ "aux" := by
  constructor
  · have hklen : k ≤ d.tokens.length := by
      by_contra hgt
      have hst := iterHead_stable d hwf w hw k (by omega)
      have := hmin d.tokens.length (by omega)
      rw [← hst, hk] at this
      exact Bool.noConfusion this
    exact getVerbFuel_first d w k hk hmin (d.tokens.length + 1) (by omega)
  · simp only [isMainVerb, Bool.and_eq_true, beq_iff_eq, bne_iff_ne, ne_eq] at hk
    exact hk.2

/-- The notebook's parse of "XYZ announced that earnings will increase
this year.", token attributes as printed by the `doc` loop. -/
def exDocXYZ : Doc := ⟨[
  ⟨"XYZ", "PROPN", "nsubj", 1⟩,
  ⟨"announced", "VERB", "ROOT", 1⟩,
  ⟨"that", "ADP", "mark", 5⟩,
  ⟨"earnings", "NOUN", "nsubj", 5⟩,
  ⟨"will", "VERB", "aux", 5⟩,
  ⟨"increase", "VERB", "ccomp", 1⟩,
  ⟨"this", "DET", "det", 7⟩,
  ⟨"year", "NOUN", "npadvmod", 5⟩,
  ⟨".", "PUNCT", "punct", 1⟩], [(0, 9)]⟩

/-- Witness for C2 at the notebook's parse: from "earnings" (token 3) the
first main verb on the chain is "increase" (token 5). -/
theorem get_verb_first_main_verb_witness :
    wellFormed exDocXYZ ∧ isMainVerb exDocXYZ (iterHead exDocXYZ 1 3) = true ∧
      get_verb exDocXYZ 3 = some (iterHead exDocXYZ 1 3) ∧
      (tokAt exDocXYZ (iterHead exDocXYZ 1 3)).dep ≠ "aux" :=
  ⟨by decide, by decide,
    get_verb_first_main_verb exDocXYZ 3 1 (by decide) (by decide) (by decide)
      (by decide)⟩

/-- C9: a token already satisfying the break condition is returned
unchanged, and `get_verb` is idempotent on terminating inputs: whatever
token it returns, running it again from there returns that same token. -/
theorem get_verb_idem (d : Doc) (w : Nat) :
    (isMainVerb d w = true → get_verb d w = some w) ∧
      (∀ v, get_verb d w = some v → get_verb d v = some v) := by
  have base : ∀ u, isMainVerb d u = true → get_verb d u = some u := by
    intro u hu
    show getVerbFuel d (d.tokens.length + 1) u = some u
    simp [getVerbFuel, hu]
  refine ⟨base w, ?_⟩
  intro v hv
  obtain ⟨k, -, hvk, hkmv, -⟩ := getVerbFuel_some d _ w v hv
  exact base v (hvk ▸ hkmv)

/-- Witness for C9 at the notebook's parse: "increase" (token 5) is a
main verb and is its own governing verb. -/
theorem get_verb_idem_witness :
    isMainVerb exDocXYZ 5 = true ∧ get_verb exDocXYZ 5 = some 5 :=
  ⟨by decide, (get_verb_idem exDocXYZ 5).1 (by decide)⟩

/-- `earnings_words` list of the notebook. -/
def earnings_words : List String := ["earnings", "profitability", "dollars per share"]

/-- `forward_words` list of the notebook. -/
def forward_words : List String := ["forecasted", "estimated", "will", "expected"]

/-- The tokens of sentence span `s`: `for w in s`. -/
def sentTokens (d : Doc) (s : Nat × Nat) : List Nat :=
  (List.range (s.2 - s.1)).map (fun j => s.1 + j)

/-- The lexicon matcher: `[w for w in s if w.text in words]`. -/
def lexMatch (d : Doc) (idxs : List Nat) (ks : List String) : List Nat :=
  idxs.filter (fun i => decide ((tokAt d i).text ∈ ks))

/-- Emission for one `(e, f)` pair of `find_sentence`'s nested loops:
an instance `[e.text, f.text, ev]` exactly when the resolved verbs are the
identical token (`ev == fv`, token identity). `none` verbs (the source
diverging) never emit. -/
def pairEmit (d : Doc) (e f : Nat × Option Nat) : Option (String × String × Nat) :=
  match e.2, f.2 with
  | some v1, some v2 =>
    if v1 = v2 then some ((tokAt d e.1).text, (tokAt d f.1).text, v1) else none
  | _, _ => none

/-- The instances `find_sentence` collects for one sentence: the cross
product of earnings-word matches and forward-word matches, kept when the
resolved governing verbs coincide. -/
def sentInstances (d : Doc) (ew fw : List String) (s : Nat × Nat) :
    List (String × String × Nat) :=
  let ep_verbs := (lexMatch d (sentTokens d s) ew).map (fun i => (i, get_verb d i))
  let fp_verbs := (lexMatch d (sentTokens d s) fw).map (fun i => (i, get_verb d i))
  ep_verbs.flatMap (fun e => fp_verbs.filterMap (fun f => pairEmit d e f))

/-- `find_sentence`: per sentence (in order), the collected instances; a
sentence becomes a key of the returned dict only when it has at least one
instance. -/
def find_sentence (d : Doc) (ew fw : List String) :
    List ((Nat × Nat) × List (String × String × Nat)) :=
  (d.sents.map (fun s => (s, sentInstances d ew fw s))).filter (fun p => !p.2.isEmpty)

/-- C4: on the notebook's parse of "XYZ announced that earnings will
increase this year." with topic set {"earnings"} and forward set
{"will"}, `find_sentence` yields exactly one instance:
(earnings, will, increase). -/
theorem find_sentence_exDocXYZ :
    find_sentence exDocXYZ ["earnings"] ["will"] =
      [((0, 9), [("earnings", "will", 5)])] := by decide

theorem pairEmit_eq_some (d : Doc) (e f : Nat × Option Nat)
    (out : String × String × Nat) :
    pairEmit d e f = some out ↔
      ∃ v, e.2 = some v ∧ f.2 = some v ∧
        out = ((tokAt d e.1).text, (tokAt d f.1).text, v) := by
  obtain ⟨i, o1⟩ := e
  obtain ⟨j, o2⟩ := f
  cases o1 <;> cases o2 <;> simp [pairEmit]
  constructor <;> rintro ⟨h1, h2⟩ <;> exact ⟨h1.symm, h2.symm⟩

/-- C3: an instance `(et, ft, v)` is collected for a sentence `s` iff it
comes from a topic-word token and a forward-word token of `s` whose
governing verbs are the identical token `v`; and a sentence collecting no
instance contributes no entry to `find_sentence`'s result. -/
theorem find_sentence_spec (d : Doc) (ew fw : List String) (s : Nat × Nat) :
    (∀ et ft v, (et, ft, v) ∈ sentInstances d ew fw s ↔
      ∃ e ∈ sentTokens d s, ∃ f ∈ sentTokens d s,
        (tokAt d e).text ∈ ew ∧ (tokAt d f).text ∈ fw ∧
        get_verb d e = some v ∧ get_verb d f = some v ∧
        et = (tokAt d e).text ∧ ft = (tokAt d f).text) ∧
    (sentInstances d ew fw s = [] → ∀ inst, (s, inst) ∉ find_sentence d ew fw) := by
  constructor
  · intro et ft v
    simp only [sentInstances, List.mem_flatMap, List.mem_map, List.mem_filterMap,
      lexMatch, List.mem_filter, decide_eq_true_eq, pairEmit_eq_some]
    constructor
    · rintro ⟨a, ⟨⟨e, ⟨he, hew⟩, rfl⟩, b, ⟨⟨f, ⟨hf, hfw⟩, rfl⟩, v', hv1, hv2, hout⟩⟩⟩
      obtain ⟨rfl, rfl, rfl⟩ := Prod.mk.injEq .. ▸ hout
      exact ⟨e, he, f, hf, hew, hfw, by simpa using hv1, by simpa using hv2, rfl, rfl⟩
    · rintro ⟨e, he, f, hf, hew, hfw, hv1, hv2, rfl, rfl⟩
      exact ⟨(e, get_verb d e), ⟨e, ⟨he, hew⟩, rfl⟩,
        (f, get_verb d f), ⟨f, ⟨hf, hfw⟩, rfl⟩, v, hv1, hv2, rfl⟩
  · intro hempty inst hmem
    simp only [find_sentence, List.mem_filter, List.mem_map] at hmem
    obtain ⟨⟨s', hs', heq⟩, hpred⟩ := hmem
    obtain ⟨rfl, rfl⟩ := Prod.mk.injEq .. ▸ heq
    rw [hempty] at hpred
    simp at hpred

/-- Witness for C3 at the notebook's parse: the instance
(earnings, will, increase) arises from tokens 3 and 4 of the sentence. -/
theorem find_sentence_spec_witness :
    ("earnings", "will", 5) ∈ sentInstances exDocXYZ ["earnings"] ["will"] (0, 9) :=
  ((find_sentence_spec exDocXYZ ["earnings"] ["will"] (0, 9)).1 "earnings" "will" 5).mpr
    ⟨3, by decide, 4, by decide, by decide, by decide, by decide, by decide,
      by decide, by decide⟩

/-- Document scan order: every sentence's tokens, sentences in order. -/
def scanOrder (d : Doc) : List Nat := d.sents.flatMap (sentTokens d)

/-- Python's `dict.update({k: v})`: overwrite the value of an existing
key in place, otherwise append the new binding at the end. -/
def dictUpdate (m : List (Nat × Nat)) (k v : Nat) : List (Nat × Nat) :=
  if m.any (fun p => decide (p.1 = k)) then
    m.map (fun p => if p.1 = k then (k, v) else p)
  else m ++ [(k, v)]

/-- One step of `get_subjMap`'s scan:
`if w.dep_ == 'nsubj': subj_map.update({w.head: w})`. -/
def subjStep (d : Doc) (m : List (Nat × Nat)) (i : Nat) : List (Nat × Nat) :=
  if (tokAt d i).dep = "nsubj" then dictUpdate m (tokAt d i).head i else m

/-- `get_subjMap`: scan every sentence's tokens, recording head ↦ token
for each nominal subject. -/
def get_subjMap (d : Doc) : List (Nat × Nat) :=
  (scanOrder d).foldl (subjStep d) []

/-- The keys of an association-list map. -/
def mapKeys (m : List (Nat × Nat)) : List Nat := m.map Prod.fst

/-- Dictionary lookup `m[k]`, `none` modelling a raised `KeyError`. -/
def mapLookup (m : List (Nat × Nat)) (k : Nat) : Option Nat :=
  (m.find? (fun p => decide (p.1 = k))).map Prod.snd

theorem mapKeys_map_overwrite (m : List (Nat × Nat)) (k v : Nat) :
    mapKeys (m.map (fun p => if p.1 = k then (k, v) else p)) = mapKeys m := by
  induction m with
  | nil => rfl
  | cons p m ih =>
    by_cases hp : p.1 = k
    · simp only [mapKeys, List.map_cons, if_pos hp] at *
      rw [ih, hp]

    · simp only [mapKeys, List.map_cons, if_neg hp] at *
      rw [ih]

theorem any_key_iff (m : List (Nat × Nat)) (k : Nat) :
    (m.any (fun p => decide (p.1 = k)) = true) ↔ k ∈ mapKeys m := by
  simp [List.any_eq_true, mapKeys, List.mem_map]

theorem mapKeys_dictUpdate (m : List (Nat × Nat)) (k v : Nat) :
    mapKeys (dictUpdate m k v) =
      if k ∈ mapKeys m then mapKeys m else mapKeys m ++ [k] := by
  unfold dictUpdate
  by_cases h : m.any (fun p => decide (p.1 = k)) = true
  · rw [if_pos h, mapKeys_map_overwrite, if_pos ((any_key_iff m k).mp h)]
  · rw [if_neg h, if_neg (fun hk => h ((any_key_iff m k).mpr hk))]
    simp [mapKeys]

theorem nodup_mapKeys_dictUpdate (m : List (Nat × Nat)) (k v : Nat)
    (h : (mapKeys m).Nodup) : (mapKeys (dictUpdate m k v)).Nodup := by
  rw [mapKeys_dictUpdate]
  by_cases hk : k ∈ mapKeys m
  · rwa [if_pos hk]
  · rw [if_neg hk]
    exact h.append (List.nodup_singleton k) (List.disjoint_singleton.2 hk)

theorem mapLookup_overwrite_self (m : List (Nat × Nat)) (k v : Nat)
    (h : k ∈ mapKeys m) :
    mapLookup (m.map (fun p => if p.1 = k then (k, v) else p)) k = some v := by
  induction m with
  | nil => simp [mapKeys] at h
  | cons p m ih =>
    by_cases hp : p.1 = k
    · simp only [List.map_cons, if_pos hp, mapLookup]
      rw [List.find?_cons_of_pos _ (by simp)]
      rfl
    · have h' : k ∈ mapKeys m := by
        have hmem : k = p.1 ∨ k ∈ mapKeys m := by
          have h2 := h
          simp only [mapKeys, List.map_cons, List.mem_cons] at h2
          exact h2
        rcases hmem with h1 | h1
        · exact absurd h1.symm hp
        · exact h1
      simp only [List.map_cons, if_neg hp, mapLookup] at *
      rw [List.find?_cons_of_neg _ (by simp [hp])]
      exact ih h'

theorem mapLookup_overwrite_ne (m : List (Nat × Nat)) (k v k' : Nat)
    (hne : k' ≠ k) :
    mapLookup (m.map (fun p => if p.1 = k then (k, v) else p)) k' =
      mapLookup m k' := by
  induction m with
  | nil => rfl
  | cons p m ih =>
    by_cases hp : p.1 = k
    · simp only [List.map_cons, if_pos hp, mapLookup] at *
      rw [List.find?_cons_of_neg _ (by simp; exact fun h => hne h.symm),
        List.find?_cons_of_neg _ (by simp [hp]; exact fun h => hne h.symm)]
      exact ih
    · by_cases hq : p.1 = k'
      · simp only [List.map_cons, if_neg hp, mapLookup]
        rw [List.find?_cons_of_pos _ (by simp [hq]), List.find?_cons_of_pos _ (by simp [hq])]
      · simp only [List.map_cons, if_neg hp, mapLookup] at *
        rw [List.find?_cons_of_neg _ (by simp [hq]), List.find?_cons_of_neg _ (by simp [hq])]
        exact ih

theorem mapLookup_dictUpdate_self (m : List (Nat × Nat)) (k v : Nat) :
    mapLookup (dictUpdate m k v) k = some v := by
  unfold dictUpdate
  by_cases h : m.any (fun p => decide (p.1 = k)) = true
  · rw [if_pos h]
    exact mapLookup_overwrite_self m k v ((any_key_iff m k).mp h)
  · rw [if_neg h]
    unfold mapLookup
    rw [List.find?_append]
    have hnone : m.find? (fun p => decide (p.1 = k)) = none := by
      rw [List.find?_eq_none]
      intro p hp hpk
      exact h (List.any_eq_true.mpr ⟨p, hp, hpk⟩)
    rw [hnone]
    simp [List.find?]

theorem mapLookup_dictUpdate_ne (m : List (Nat × Nat)) (k v k' : Nat)
    (hne : k' ≠ k) : mapLookup (dictUpdate m k v) k' = mapLookup m k' := by
  unfold dictUpdate
  by_cases h : m.any (fun p => decide (p.1 = k)) = true
  · rw [if_pos h]
    exact mapLookup_overwrite_ne m k v k' hne
  · rw [if_neg h]
    unfold mapLookup
    rw [List.find?_append]
    have hsing : List.find? (fun p => decide (p.1 = k')) [(k, v)] = none := by
      rw [List.find?_eq_none]
      intro p hp
      rw [List.mem_singleton] at hp
      subst hp
      simp only [decide_eq_true_eq]
      exact fun hkk => hne hkk.symm
    cases hm : m.find? (fun p => decide (p.1 = k')) <;> simp [hm, hsing]

theorem subjFold_spec (d : Doc) (xs : List Nat) :
    (mapKeys (xs.foldl (subjStep d) [])).Nodup ∧
      ∀ v, mapLookup (xs.foldl (subjStep d) []) v =
        (xs.filter (fun i =>
          decide ((tokAt d i).dep = "nsubj" ∧ (tokAt d i).head = v))).getLast? := by
  induction xs using List.reverseRecOn with
  | nil => exact ⟨List.nodup_nil, fun v => rfl⟩
  | append_singleton xs x ih =>
    obtain ⟨ihN, ihL⟩ := ih
    rw [List.foldl_append]
    simp only [List.foldl_cons, List.foldl_nil]
    by_cases hdep : (tokAt d x).dep = "nsubj"
    · rw [subjStep, if_pos hdep]
      refine ⟨nodup_mapKeys_dictUpdate _ _ _ ihN, fun v => ?_⟩
      rw [List.filter_append]
      by_cases hv : (tokAt d x).head = v
      · have hx : List.filter (fun i =>
            decide ((tokAt d i).dep = "nsubj" ∧ (tokAt d i).head = v)) [x] = [x] := by
          simp [hdep, hv]
        rw [hx, List.getLast?_concat, ← hv]
        exact mapLookup_dictUpdate_self _ _ _
      · have hx : List.filter (fun i =>
            decide ((tokAt d i).dep = "nsubj" ∧ (tokAt d i).head = v)) [x] = [] := by
          simp [hv]
        rw [hx, List.append_nil, mapLookup_dictUpdate_ne _ _ _ _ (fun h => hv h.symm)]
        exact ihL v
    · rw [subjStep, if_neg hdep]
      refine ⟨ihN, fun v => ?_⟩
      rw [List.filter_append]
      have hx : List.filter (fun i =>
          decide ((tokAt d i).dep = "nsubj" ∧ (tokAt d i).head = v)) [x] = [] := by
        simp [hdep]
      rw [hx, List.append_nil]
      exact ihL v

/-- C6: the subject map has no duplicate verb keys, and the value stored
under a verb `v` is the last token in document scan order whose dependency
label is `"nsubj"` and whose head is `v` (last writer wins). -/
theorem get_subjMap_spec (d : Doc) :
    (mapKeys (get_subjMap d)).Nodup ∧
      ∀ v, mapLookup (get_subjMap d) v =
        ((scanOrder d).filter (fun i =>
          decide ((tokAt d i).dep = "nsubj" ∧ (tokAt d i).head = v))).getLast? :=
  subjFold_spec d (scanOrder d)

/-- Modelled from the spec: the dependency parse of `bad_sent` ("XYZ
stated that although earnings had fallen last year, the board remained
confident in how the new CEO will manage the company.") is produced by
the external parser and is not recorded in the source; this parse follows
the spec's statement that the topic word "earnings" and the forward word
"will" resolve to different governing verbs ("fallen" and "manage"). -/
def exDocBad : Doc := ⟨[
  ⟨"XYZ", "PROPN", "nsubj", 1⟩,
  ⟨"stated", "VERB", "ROOT", 1⟩,
  ⟨"that", "ADP", "mark", 12⟩,
  ⟨"although", "ADP", "mark", 6⟩,
  ⟨"earnings", "NOUN", "nsubj", 6⟩,
  ⟨"had", "VERB", "aux", 6⟩,
  ⟨"fallen", "VERB", "advcl", 12⟩,
  ⟨"last", "ADJ", "amod", 8⟩,
  ⟨"year", "NOUN", "npadvmod", 6⟩,
  ⟨",", "PUNCT", "punct", 12⟩,
  ⟨"the", "DET", "det", 11⟩,
  ⟨"board", "NOUN", "nsubj", 12⟩,
  ⟨"remained", "VERB", "ccomp", 1⟩,
  ⟨"confident", "ADJ", "acomp", 12⟩,
  ⟨"in", "ADP", "prep", 13⟩,
  ⟨"how", "ADV", "advmod", 20⟩,
  ⟨"the", "DET", "det", 18⟩,
  ⟨"new", "ADJ", "amod", 18⟩,
  ⟨"CEO", "NOUN", "nsubj", 20⟩,
  ⟨"will", "VERB", "aux", 20⟩,
  ⟨"manage", "VERB", "pcomp", 14⟩,
  ⟨"the", "DET", "det", 22⟩,
  ⟨"company", "NOUN", "dobj", 20⟩,
  ⟨".", "PUNCT", "punct", 1⟩], [(0, 24)]⟩

/-- C5: on `bad_sent`, where "earnings" resolves to "fallen" (token 6)
and "will" resolves to "manage" (token 20), `find_sentence` yields zero
instances. -/
theorem find_sentence_exDocBad :
    get_verb exDocBad 4 = some 6 ∧ get_verb exDocBad 19 = some 20 ∧
      find_sentence exDocBad earnings_words forward_words = [] := by decide

/-- C7: the lexicon matcher returns exactly the sentence tokens whose
surface text is equal, by exact string equality, to an entry of the
keyword set, and it preserves the sentence's token order (sublist). -/
theorem lexMatch_spec (d : Doc) (s : Nat × Nat) (ks : List String) :
    (∀ i, i ∈ lexMatch d (sentTokens d s) ks ↔
      i ∈ sentTokens d s ∧ (tokAt d i).text ∈ ks) ∧
    (lexMatch d (sentTokens d s) ks).Sublist (sentTokens d s) := by
  refine ⟨fun i => ?_, List.filter_sublist _⟩
  simp [lexMatch, List.mem_filter]

/-- Dictionary lookup raising on a missing key, as `subj_map[v]` does:
`Except.error k` models the `KeyError` for key `k`. -/
def lookupExc (m : List (Nat × Nat)) (k : Nat) : Except Nat Nat :=
  match mapLookup m k with
  | some v => Except.ok v
  | none => Except.error k

/-- The notebook's reporting loop over `find_sentence`'s results: for each
instance `(e, f, v)` it evaluates `subj_map[v]` and pairs the instance
with the found subject; a missing key aborts with the `KeyError`. -/
def reportSubjects (d : Doc) (ew fw : List String) :
    Except Nat (List (String × String × Nat × Nat)) :=
  ((find_sentence d ew fw).flatMap (fun p => p.2)).mapM
    (fun inst => (lookupExc (get_subjMap d) inst.2.2).map
      (fun subj => (inst.1, inst.2.1, inst.2.2, subj)))

/-- A parse of "Next year earnings are expected to grow.": the guidance
instance (earnings, expected, expected) exists, yet the sentence has no
token with dependency label `"nsubj"` ("earnings" is a passive subject,
`"nsubjpass"`), so the governing verb (token 4) is not a key of the
subject map. -/
def exDocImp : Doc := ⟨[
  ⟨"Next", "ADJ", "amod", 1⟩,
  ⟨"year", "NOUN", "npadvmod", 4⟩,
  ⟨"earnings", "NOUN", "nsubjpass", 4⟩,
  ⟨"are", "VERB", "auxpass", 4⟩,
  ⟨"expected", "VERB", "ROOT", 4⟩,
  ⟨"to", "PART", "aux", 6⟩,
  ⟨"grow", "VERB", "xcomp", 4⟩,
  ⟨".", "PUNCT", "punct", 4⟩], [(0, 8)]⟩

/-- C8: on this parse a guidance instance exists whose governing verb
(token 4) is not a key of the subject map, and the lookup `subj_map[v]`
fails with the `KeyError` condition rather than producing a value. -/
theorem subj_lookup_keyError :
    find_sentence exDocImp earnings_words forward_words =
        [((0, 8), [("earnings", "expected", 4)])] ∧
      mapLookup (get_subjMap exDocImp) 4 = none ∧
      reportSubjects exDocImp earnings_words forward_words = Except.error 4 :=
  ⟨by decide, by decide, by rfl⟩

/-- `positive_words` list of the notebook's sentiment example. -/
def positive_words : List String := ["great", "tremendous", "amazing"]

/-- `negative_words` list of the notebook's sentiment example. -/
def negative_words : List String := ["awful", "terrible", "horrific"]

/-- Python's `str.split()`: cut at runs of whitespace, dropping empty
pieces; `acc` holds the characters of the current word, reversed. -/
def splitAux : List Char → List Char → List (List Char)
  | [], [] => []
  | [], acc => [acc.reverse]
  | c :: cs, acc =>
    if c.isWhitespace then
      match acc with
      | [] => splitAux cs []
      | _ => acc.reverse :: splitAux cs []
    else splitAux cs (c :: acc)

/-- `sentence.split()` on a string. -/
def pySplit (s : String) : List String :=
  (splitAux s.data []).map (fun cs => ⟨cs⟩)

/-- `num_pos`: how many split words lie in the positive list. -/
def num_pos (s : String) : Nat :=
  ((pySplit s).filter (fun w => decide (w ∈ positive_words))).length

/-- `num_neg`: how many split words lie in the negative list. -/
def num_neg (s : String) : Nat :=
  ((pySplit s).filter (fun w => decide (w ∈ negative_words))).length

/-- `tone = num_neg / (num_neg + num_pos)`: `none` models the
`ZeroDivisionError` raised when the denominator is zero. -/
def tone (s : String) : Option ℚ :=
  if num_neg s + num_pos s = 0 then none
  else some ((num_neg s : ℚ) / ((num_neg s : ℚ) + (num_pos s : ℚ)))

/-- C10: on a sentence holding no positive-list word and no negative-list
word under whitespace splitting, the tone computation divides by zero and
fails rather than returning a tone value. -/
theorem tone_div_zero (s : String)
    (hp : (pySplit s).filter (fun w => decide (w ∈ positive_words)) = [])
    (hn : (pySplit s).filter (fun w => decide (w ∈ negative_words)) = []) :
    tone s = none := by
  simp [tone, num_pos, num_neg, hp, hn]

/-- Witness for C10 at a concrete neutral sentence. -/
theorem tone_div_zero_witness :
    (pySplit "We had an okay quarter.").filter
        (fun w => decide (w ∈ positive_words)) = [] ∧
      tone "We had an okay quarter." = none :=
  ⟨by decide, tone_div_zero "We had an okay quarter." (by decide) (by decide)⟩

end Notebook
